import Mathlib

/-!
Shallow embedding of `rotate4logrus` (v2), the size-triggered log-rotation
hook for logrus.  Pure state is modelled explicitly:

* tracked size and live-file length (`FireState`) for the dispatch path
  (`Fire` in the source);
* the on-disk generation files as a map from slot index to existence,
  where slot `-1` is the bare live path and slot `k ≥ 0` is `path.k`
  (the `rotate` loop in the source);
* the pause arbiter goroutine as a set of lease tokens together with a
  fresh-token supply (`locks` map in the source's arbiter).

External effects (the write syscall, a panicking user predicate, a failing
close) enter as oracle parameters, mirroring exactly where the source
consults them.  Go's `uint64` arithmetic is `Nat` arithmetic modulo `2^64`.
-/

namespace Rotate4logrus

/-- Modulus of Go `uint64` arithmetic. -/
def U64 : Nat := 2 ^ 64

/-- Error values produced by the hook's operations (the `fmt.Errorf`
results in the source, by category). -/
inductive RErr where
  | ctxDone
  | convFailed
  | predicatePanic
  | openFailed
  | statFailed
  | closeFailed
  | writeFailed
  | wrapRotate (e : RErr)
  deriving DecidableEq, Repr

/-- Observable events of one dispatch, in order of occurrence: a successful
rotation, and a successful write of `n` bytes. -/
inductive Event where
  | rotated
  | wrote (n : Nat)
  deriving DecidableEq, Repr

/-- Mutable hook state touched by `Fire`: `size` is `h.size` (`uint64`
tracked byte count), `fileLen` is the live file's on-disk length. -/
structure FireState where
  size : Nat
  fileLen : Nat
  deriving DecidableEq, Repr

/-- Per-dispatch environment of `Fire`: context state, the arbiter's answer
to `paused()`, configuration, and the oracles for the external effects. In
`custom`, the user predicate `cfg.NeedRotate` maps the payload length to
`some b` for a normal return and `none` for a panic; `entry` is
`entry.Bytes()` (payload length, `none` = conversion failure); `rotateErr`
is the outcome of `h.rotate()` internals; `writeRes` is `h.file.Write`
(`some n` = `n` bytes written, `none` = write error). -/
structure FireEnv where
  ctxDone : Bool
  paused : Bool
  cfgSize : Nat
  custom : Option (Nat → Option Bool)
  entry : Option Nat
  rotateErr : Option RErr
  writeRes : Option Nat

/-- Embedding of `hook.needRotate` as installed by `New`: the default
size-based predicate when `cfg.NeedRotate == nil`, otherwise the wrapper
around the user predicate with its `recover()` fault boundary.  Both first
consult `hook.paused()` (the `paused` argument). -/
def needRotate (paused : Bool) (custom : Option (Nat → Option Bool))
    (cfgSize size lenBytes : Nat) : Bool × Option RErr :=
  match custom with
  | none =>
    if paused then (false, none)
    else (decide (cfgSize ≤ (size + lenBytes) % U64), none)
  | some f =>
    if paused then (false, none)
    else
      match f lenBytes with
      | some b => (b, none)
      | none => (false, some RErr.predicatePanic)

/-- Embedding of the write-and-account tail of `Fire`:
write the payload, on error return before the size update, otherwise
`h.size += uint64(n)`. -/
def writeStep (env : FireEnv) (s : FireState) (evs : List Event) :
    FireState × List Event × Option RErr :=
  match env.writeRes with
  | none => (s, evs, some RErr.writeFailed)
  | some n =>
    (⟨(s.size + n) % U64, s.fileLen + n⟩, evs ++ [Event.wrote n], none)

/-- Embedding of `Fire` (v2): context check, `entry.Bytes()`, the
`needRotate` query, the rotation on a true verdict (after which the fresh
file is empty and `h.size = 0`), then the write. -/
def fire (env : FireEnv) (s : FireState) :
    FireState × List Event × Option RErr :=
  if env.ctxDone then (s, [], some RErr.ctxDone) else
  match env.entry with
  | none => (s, [], some RErr.convFailed)
  | some lenBytes =>
    match needRotate env.paused env.custom env.cfgSize s.size lenBytes with
    | (_, some e) => (s, [], some e)
    | (rot, none) =>
      if rot then
        match env.rotateErr with
        | some e => (s, [], some (RErr.wrapRotate e))
        | none => writeStep env ⟨0, 0⟩ [Event.rotated]
      else writeStep env s []

/-- Sequential dispatches: run `fire` over a list of per-call environments,
stopping at the first error, concatenating the event traces. -/
def fireSeq : List FireEnv → FireState → FireState × List Event × Option RErr
  | [], s => (s, [], none)
  | e :: rest, s =>
    match fire e s with
    | (s1, evs1, none) =>
      match fireSeq rest s1 with
      | (s2, evs2, r) => (s2, evs1 ++ evs2, r)
    | (s1, evs1, some err) => (s1, evs1, some err)

/-- Total bytes reported written in an event trace. -/
def sumWrites : List Event → Nat
  | [] => 0
  | Event.rotated :: r => sumWrites r
  | Event.wrote n :: r => n + sumWrites r

/-- Update one slot of the generation disk (slot `-1` = bare live path,
slot `k ≥ 0` = `path.k`). -/
def setSlot (d : Int → Bool) (k : Int) (b : Bool) : Int → Bool :=
  fun j => if j = k then b else d j

/-- Accumulated effect of the generation-shift loop: disk contents, whether
any rename's destination already existed when the rename ran, and the list
of slots passed to `os.Remove`. -/
structure ShiftAcc where
  disk : Int → Bool
  clobbered : Bool
  removed : List Int

/-- One iteration of the loop body of `rotate` at index `k`
(`n := k + 1`): when `n == cfg.Rotate`, `os.Remove` of slot `k` with the
error ignored; otherwise `os.Stat` of slot `k` (skip when absent) and
`os.Rename` of slot `k` to slot `n`. -/
def shiftStep (R : Nat) (acc : ShiftAcc) (k : Int) : ShiftAcc :=
  if k + 1 = (R : Int) then
    { acc with disk := setSlot acc.disk k false, removed := acc.removed ++ [k] }
  else if acc.disk k then
    { disk := setSlot (setSlot acc.disk (k + 1) true) k false,
      clobbered := acc.clobbered || acc.disk (k + 1),
      removed := acc.removed }
  else acc

/-- Countdown driver of the loop `for k := cfg.Rotate - 1; k >= -1; k--`:
with `f + 1` iterations remaining the index processed is `(f : Int) - 1`,
so fuel `R + 1` starts at `k = R - 1` and ends at `k = -1`. -/
def shiftFrom (R : Nat) : Nat → ShiftAcc → ShiftAcc
  | 0, acc => acc
  | f + 1, acc => shiftFrom R f (shiftStep R acc ((f : Int) - 1))

/-- Whole generation-shift loop of `rotate`, on an arbitrary starting disk. -/
def rotateShift (R : Nat) (d : Int → Bool) : ShiftAcc :=
  shiftFrom R (R + 1) { disk := d, clobbered := false, removed := [] }

/-- Embedding of `rotate` (v2): context check, `h.file.Close()` (a failure
aborts before the loop), the generation shift, then `h.open()` which
recreates the live file. -/
def rotate (ctxDone closeFails : Bool) (R : Nat) (d : Int → Bool) :
    (Int → Bool) × List Int × Option RErr :=
  if ctxDone then (d, [], some RErr.ctxDone)
  else if closeFails then (d, [], some RErr.closeFailed)
  else
    let acc := rotateShift R d
    (setSlot acc.disk (-1) true, acc.removed, none)

/-- Embedding of `h.open()`: context check, `os.OpenFile`, `file.Stat`,
then `h.size = uint64(stat.Size())` — the tracked size is initialised from
the file's actual on-disk length. -/
def openFile (ctxDone openErr statErr : Bool) (diskLen : Nat) :
    Except RErr Nat :=
  if ctxDone then Except.error RErr.ctxDone
  else if openErr then Except.error RErr.openFailed
  else if statErr then Except.error RErr.statFailed
  else Except.ok diskLen

/-- State owned by the arbiter goroutine of `New`: the `locks` map's key
set, with pointer identities modelled as a fresh `Nat` supply. -/
structure Arbiter where
  locks : Finset Nat
  next : Nat
  deriving DecidableEq

/-- Arbiter handling of a pause request: allocate a fresh token, insert it
into `locks`, reply with the token the resume closure is bound to. -/
def acquire (a : Arbiter) : Nat × Arbiter :=
  (a.next, { locks := insert a.next a.locks, next := a.next + 1 })

/-- Effect of invoking a resume closure bound to token `t`:
`delete(locks, lock)`. -/
def release (t : Nat) (a : Arbiter) : Arbiter :=
  { a with locks := a.locks.erase t }

/-- Arbiter answer to a `paused` query: `len(locks) > 0`. -/
def isPaused (a : Arbiter) : Bool :=
  decide (0 < a.locks.card)

/-- Embedding of `Pause()`: after context cancellation it returns a no-op
resume capability (`none`) without touching the arbiter; otherwise the
arbiter grants a lease and the returned capability carries its token. -/
def pauseGo (ctxDone : Bool) (a : Arbiter) : Option Nat × Arbiter :=
  if ctxDone then (none, a)
  else (some (acquire a).1, (acquire a).2)

/-- Embedding of `paused()`: after context cancellation it answers `false`
without consulting the arbiter. -/
def pausedGo (ctxDone : Bool) (a : Arbiter) : Bool :=
  if ctxDone then false else isPaused a

/-- Well-formedness of the arbiter state: every outstanding token was drawn
from the supply, so the next token is fresh. -/
def ArbWF (a : Arbiter) : Prop :=
  ∀ t ∈ a.locks, t < a.next

/-- C1: under the default size policy with the hook unpaused, the rotation
predicate answers `rotate` iff `S + L ≥ T` (the boundary `S + L = T`
rotates), and on a true verdict the dispatch performs the rotation before
the write: the event trace is `[rotated, wrote n]`, while a false verdict
writes without rotating. -/
theorem c1_default_size_policy (T S L F n : Nat) (hov : S + L < U64) :
    ((needRotate false none T S L).1 = true ↔ T ≤ S + L)
    ∧ (T ≤ S + L →
        fire ⟨false, false, T, none, some L, none, some n⟩ ⟨S, F⟩
          = (⟨n % U64, n⟩, [Event.rotated, Event.wrote n], none))
    ∧ (S + L < T →
        fire ⟨false, false, T, none, some L, none, some n⟩ ⟨S, F⟩
          = (⟨(S + n) % U64, F + n⟩, [Event.wrote n], none)) := by
  have hmod : (S + L) % U64 = S + L := Nat.mod_eq_of_lt hov
  refine ⟨?_, ?_, ?_⟩
  · simp [needRotate, hmod]
  · intro hT
    simp [fire, needRotate, hmod, hT, writeStep]
  · intro hT
    simp [fire, needRotate, hmod, Nat.not_le.mpr hT, writeStep]

/-- Witness for `c1_default_size_policy` at `T = 10`, `S = 6`, `L = 4`
(the boundary case) with a 4-byte write. -/
theorem c1_default_size_policy_witness :
    ((needRotate false none 10 6 4).1 = true ↔ 10 ≤ 6 + 4)
    ∧ (10 ≤ 6 + 4 →
        fire ⟨false, false, 10, none, some 4, none, some 4⟩ ⟨6, 0⟩
          = (⟨4 % U64, 4⟩, [Event.rotated, Event.wrote 4], none))
    ∧ (6 + 4 < 10 →
        fire ⟨false, false, 10, none, some 4, none, some 4⟩ ⟨6, 0⟩
          = (⟨(6 + 4) % U64, 0 + 4⟩, [Event.wrote 4], none)) :=
  c1_default_size_policy 10 6 4 0 4 (by decide)

/-- Environment of a dispatch whose custom rotation predicate panics:
context live, not paused, threshold 100, user predicate panicking on every
call, a 5-byte payload, and a write oracle ready to write 5 bytes. -/
def envPanic : FireEnv :=
  ⟨false, false, 100, some (fun _ => none), some 5, none, some 5⟩

/-- C2 (counterexample): when the custom predicate panics, `Fire` returns
the descriptive error immediately with an empty event trace and an
unchanged state — no write of the payload is attempted, refuting the
claim's "the dispatch of that record still attempts the write". -/
theorem c2_counterexample :
    fire envPanic ⟨0, 0⟩ = (⟨0, 0⟩, [], some RErr.predicatePanic) := by
  rfl

/-- C2 (amended): a panic in the custom predicate is converted to a
descriptive error together with a do-not-rotate verdict, and `Fire`
returns that error before any write: the dispatch does not attempt the
write of the payload. -/
theorem c2_predicate_panic (f : Nat → Option Bool) (T S F L n : Nat)
    (hf : f L = none) :
    needRotate false (some f) T S L = (false, some RErr.predicatePanic)
    ∧ fire ⟨false, false, T, some f, some L, none, some n⟩ ⟨S, F⟩
        = (⟨S, F⟩, [], some RErr.predicatePanic) := by
  constructor
  · simp [needRotate, hf]
  · simp [fire, needRotate, hf]

/-- Witness for `c2_predicate_panic` on an always-panicking predicate. -/
theorem c2_predicate_panic_witness :
    needRotate false (some (fun _ => none)) 100 0 5
        = (false, some RErr.predicatePanic)
    ∧ fire ⟨false, false, 100, some (fun _ => none), some 5, none, some 5⟩
        ⟨0, 0⟩
        = (⟨0, 0⟩, [], some RErr.predicatePanic) :=
  c2_predicate_panic (fun _ => none) 100 0 0 5 5 rfl

/-- C3 (code evaluated at the failing input): with `cfg.Size = 0` and the
hook unpaused, the default predicate answers `rotate` for a 1-byte payload
at tracked size 0, and the dispatch performs a rotation — size-based
rotation is not disabled by a zero threshold in this code. -/
theorem c3_size_zero_rotates :
    needRotate false none 0 0 1 = (true, none)
    ∧ fire ⟨false, false, 0, none, some 1, none, some 1⟩ ⟨0, 0⟩
        = (⟨1, 1⟩, [Event.rotated, Event.wrote 1], none) := by
  constructor <;> rfl

/-- Rename-only suffix of the shift loop: with `v ≤ R` iterations left
(indices `v - 2` down to `-1`, none of which is the remove index) and the
topmost rename destination `v - 1` free, the loop shifts every slot below
`v` up by one, leaves slots at `v` and above untouched, never finds a
rename destination occupied, and removes nothing. -/
theorem shiftFrom_renames (R : Nat) :
    ∀ v : Nat, v ≤ R → ∀ acc : ShiftAcc, acc.disk ((v : Int) - 1) = false →
      (shiftFrom R v acc).clobbered = acc.clobbered
      ∧ (shiftFrom R v acc).removed = acc.removed
      ∧ (∀ j : Int, 0 ≤ j → j ≤ (v : Int) - 1 →
          (shiftFrom R v acc).disk j = acc.disk (j - 1))
      ∧ (∀ j : Int, (v : Int) ≤ j → (shiftFrom R v acc).disk j = acc.disk j)
      ∧ (1 ≤ v → (shiftFrom R v acc).disk (-1) = false) := by
  intro v
  induction v with
  | zero =>
    intro _ acc _
    refine ⟨rfl, rfl, ?_, ?_, ?_⟩
    · intro j hj0 hj1
      exfalso; omega
    · intro j _; rfl
    · intro h; exfalso; omega
  | succ v ih =>
    intro hvR acc hpre
    have hvR' : v ≤ R := Nat.le_of_succ_le hvR
    have hvne : ¬((v : Int) - 1 + 1 = (R : Int)) := by
      have : v < R := Nat.lt_of_succ_le hvR
      omega
    have hpre' : acc.disk (v : Int) = false := by
      have hc : ((v + 1 : Nat) : Int) - 1 = (v : Int) := by push_cast; ring
      rwa [hc] at hpre
    have hsub : (v : Int) - 1 + 1 = (v : Int) := by ring
    -- facts about the state after the iteration at index `v - 1`
    have hstep :
        (shiftStep R acc ((v : Int) - 1)).disk ((v : Int) - 1) = false
        ∧ (shiftStep R acc ((v : Int) - 1)).clobbered = acc.clobbered
        ∧ (shiftStep R acc ((v : Int) - 1)).removed = acc.removed
        ∧ (shiftStep R acc ((v : Int) - 1)).disk (v : Int)
            = acc.disk ((v : Int) - 1)
        ∧ (∀ j : Int, j ≠ (v : Int) - 1 → j ≠ (v : Int) →
            (shiftStep R acc ((v : Int) - 1)).disk j = acc.disk j) := by
      have hvneN : ¬(v = R) := Nat.ne_of_lt (Nat.lt_of_succ_le hvR)
      cases hd : acc.disk ((v : Int) - 1) with
      | false =>
        have hs : shiftStep R acc ((v : Int) - 1) = acc := by
          simp [shiftStep, hvne, hvneN, hd]
        rw [hs]
        exact ⟨hd, rfl, rfl, hpre', fun j _ _ => rfl⟩
      | true =>
        have hs : shiftStep R acc ((v : Int) - 1)
            = { disk := setSlot (setSlot acc.disk (v : Int) true)
                  ((v : Int) - 1) false,
                clobbered := acc.clobbered || acc.disk (v : Int),
                removed := acc.removed } := by
          simp [shiftStep, hvne, hvneN, hd, hsub]
        rw [hs]
        refine ⟨?_, ?_, rfl, ?_, ?_⟩
        · simp [setSlot]
        · simp [hpre']
        · have hne : (v : Int) ≠ (v : Int) - 1 := by omega
          simp [setSlot, hne, hd]
        · intro j hj1 hj2
          simp [setSlot, hj1, hj2]
    obtain ⟨h1, h2, h3, h4, h5⟩ := hstep
    obtain ⟨i1, i2, i3, i4, i5⟩ := ih hvR' (shiftStep R acc ((v : Int) - 1)) h1
    have hunf : shiftFrom R (v + 1) acc
        = shiftFrom R v (shiftStep R acc ((v : Int) - 1)) := rfl
    rw [hunf]
    have hcast : ((v + 1 : Nat) : Int) - 1 = (v : Int) := by push_cast; ring
    refine ⟨i1.trans h2, i2.trans h3, ?_, ?_, ?_⟩
    · intro j hj0 hj1
      rw [hcast] at hj1
      rcases lt_or_eq_of_le hj1 with hjlt | hjeq
      · have := i3 j hj0 (by omega)
        rw [this, h5 (j - 1) (by omega) (by omega)]
      · subst hjeq
        rw [i4 (v : Int) le_rfl, h4]
    · intro j hj
      have hj' : (v : Int) ≤ j := by push_cast at hj; omega
      rw [i4 j hj', h5 j (by push_cast at hj; omega) (by push_cast at hj; omega)]
    · intro _
      rcases Nat.eq_zero_or_pos v with hv | hv
      · subst hv
        show (shiftStep R acc (((0 : Nat) : Int) - 1)).disk (-1) = false
        have hm : (((0 : Nat) : Int) - 1) = (-1 : Int) := by norm_num
        rw [hm] at h1 ⊢
        exact h1
      · exact i5 hv

/-- Full characterisation of the generation-shift loop: exactly one
`os.Remove` call, on slot `R - 1`; no rename destination was ever
occupied; the live slot is emptied; every slot up to `R - 1` receives the
previous content of the slot below it; slots from `R` upward are
untouched. -/
theorem rotateShift_spec (R : Nat) (d : Int → Bool) :
    (rotateShift R d).clobbered = false
    ∧ (rotateShift R d).removed = [(R : Int) - 1]
    ∧ (rotateShift R d).disk (-1) = false
    ∧ (∀ j : Int, 0 ≤ j → j ≤ (R : Int) - 1 →
        (rotateShift R d).disk j = d (j - 1))
    ∧ (∀ j : Int, (R : Int) ≤ j → (rotateShift R d).disk j = d j) := by
  have hunf : rotateShift R d
      = shiftFrom R R (shiftStep R ⟨d, false, []⟩ ((R : Int) - 1)) := rfl
  have hs0 : shiftStep R ⟨d, false, []⟩ ((R : Int) - 1)
      = ⟨setSlot d ((R : Int) - 1) false, false, [(R : Int) - 1]⟩ := by
    have hcond : ((R : Int) - 1) + 1 = (R : Int) := by ring
    simp only [shiftStep, if_pos hcond]
    rfl
  obtain ⟨i1, i2, i3, i4, i5⟩ := shiftFrom_renames R R le_rfl
      (shiftStep R ⟨d, false, []⟩ ((R : Int) - 1))
      (by rw [hs0]; simp [setSlot])
  rw [hunf]
  refine ⟨?_, ?_, ?_, ?_, ?_⟩
  · rw [i1, hs0]
  · rw [i2, hs0]
  · rcases Nat.eq_zero_or_pos R with hR | hR
    · subst hR
      show (shiftStep 0 ⟨d, false, []⟩ (((0 : Nat) : Int) - 1)).disk (-1)
          = false
      rw [hs0]
      norm_num [setSlot]
    · exact i5 hR
  · intro j hj0 hj1
    rw [i3 j hj0 hj1, hs0]
    have hne : j - 1 ≠ (R : Int) - 1 := by omega
    simp [setSlot, hne]
  · intro j hj
    rw [i4 j hj, hs0]
    have hne : j ≠ (R : Int) - 1 := by omega
    simp [setSlot, hne]

/-- C5: the generation shift with retention `R` processes indices `R - 1`
down to `-1`; the single delete targets index `R - 1` and ignores absence;
every other existing index moves up one slot and absent indices are
skipped without error; no rename ever finds its destination occupied
(descending order never overwrites a file that still needs to move). -/
theorem c5_generation_shift (R : Nat) (d : Int → Bool) :
    (rotateShift R d).clobbered = false
    ∧ (rotateShift R d).removed = [(R : Int) - 1]
    ∧ (rotateShift R d).disk (-1) = false
    ∧ (∀ j : Int, 0 ≤ j → j ≤ (R : Int) - 1 →
        (rotateShift R d).disk j = d (j - 1))
    ∧ (∀ j : Int, (R : Int) ≤ j → (rotateShift R d).disk j = d j) :=
  rotateShift_spec R d

/-- Example starting disk for the rotation witnesses: the bare live path
and `path.0` exist, nothing else. -/
def dEx : Int → Bool :=
  fun j => decide (j = -1) || decide (j = 0)

/-- Witness for `c5_generation_shift` at `R = 2` on `dEx`. -/
theorem c5_generation_shift_witness :
    (rotateShift 2 dEx).clobbered = false
    ∧ (rotateShift 2 dEx).removed = [(1 : Int)]
    ∧ (rotateShift 2 dEx).disk (-1) = false
    ∧ (rotateShift 2 dEx).disk 0 = dEx (-1)
    ∧ (rotateShift 2 dEx).disk 5 = dEx 5 := by
  obtain ⟨a, b, c, e, f⟩ := c5_generation_shift 2 dEx
  refine ⟨a, ?_, c, ?_, ?_⟩
  · rw [b]; norm_num
  · have h := e 0 (by norm_num) (by norm_num)
    simpa using h
  · exact f 5 (by norm_num)

/-- C10: a rotation with retention `R ≥ 1` never removes the live path —
its single `os.Remove` call targets the numbered slot `R - 1`, the bare
path's content moves to `path.0`, and the live path is recreated by the
reopen — while a rotation with `R = 0` removes the bare live path
itself. -/
theorem c10_live_file_preserved (R : Nat) (d : Int → Bool) (hR : 1 ≤ R) :
    (rotate false false R d).2.1 = [(R : Int) - 1]
    ∧ (0 : Int) ≤ (R : Int) - 1
    ∧ (rotate false false R d).1 0 = d (-1)
    ∧ (rotate false false R d).1 (-1) = true
    ∧ (rotate false false 0 d).2.1 = [(-1 : Int)] := by
  have hrot : rotate false false R d
      = (setSlot (rotateShift R d).disk (-1) true,
         (rotateShift R d).removed, none) := rfl
  have hrot0 : rotate false false 0 d
      = (setSlot (rotateShift 0 d).disk (-1) true,
         (rotateShift 0 d).removed, none) := rfl
  obtain ⟨_, b, _, e, _⟩ := rotateShift_spec R d
  obtain ⟨_, b0, _, _, _⟩ := rotateShift_spec 0 d
  rw [hrot, hrot0]
  refine ⟨b, by omega, ?_, ?_, ?_⟩
  · have h0 : (0 : Int) ≠ -1 := by norm_num
    have h := e 0 (by norm_num) (by omega)
    simpa [setSlot, h0] using h
  · simp [setSlot]
  · rw [b0]; norm_num

/-- Witness for `c10_live_file_preserved` at `R = 2` on `dEx`. -/
theorem c10_live_file_preserved_witness :
    (rotate false false 2 dEx).2.1 = [((2 : Nat) : Int) - 1]
    ∧ (0 : Int) ≤ ((2 : Nat) : Int) - 1
    ∧ (rotate false false 2 dEx).1 0 = dEx (-1)
    ∧ (rotate false false 2 dEx).1 (-1) = true
    ∧ (rotate false false 0 dEx).2.1 = [(-1 : Int)] :=
  c10_live_file_preserved 2 dEx (by norm_num)

/-- C8: when closing the live handle fails at the start of a rotation, the
rotation aborts with the close error before any remove or rename: the
returned disk is the input disk unchanged at every slot and the list of
`os.Remove` calls is empty. -/
theorem c8_close_failure_aborts (R : Nat) (d : Int → Bool) :
    rotate false true R d = (d, [], some RErr.closeFailed) := rfl

/-- C7: once the context is done, every operation fails fast without I/O —
`Fire` returns the context-done error with no events and unchanged state,
`open` and `rotate` return the context-done error with the disk untouched
and nothing removed, `Pause` returns a no-op resume capability leaving the
arbiter unchanged, and the internal `paused()` query answers `false`. -/
theorem c7_cancellation_fail_fast (p : Bool) (T : Nat)
    (c : Option (Nat → Option Bool)) (e : Option Nat) (re : Option RErr)
    (w : Option Nat) (s : FireState) (oe se cf : Bool) (dl R : Nat)
    (d : Int → Bool) (a : Arbiter) :
    fire ⟨true, p, T, c, e, re, w⟩ s = (s, [], some RErr.ctxDone)
    ∧ openFile true oe se dl = Except.error RErr.ctxDone
    ∧ rotate true cf R d = (d, [], some RErr.ctxDone)
    ∧ pauseGo true a = (none, a)
    ∧ pausedGo true a = false :=
  ⟨rfl, rfl, rfl, rfl, rfl⟩

/-- C6: a lease is in the set as soon as the arbiter grants it; invoking
its resume capability removes exactly that lease and leaves every other
lease's membership unchanged; invoking it a second time removes nothing
further; independent leases coexist (two grants yield distinct tokens,
both present, and the set grows by exactly one per grant); and the
fresh-token well-formedness is preserved by grant and release. -/
theorem c6_lease_invariants (a b : Arbiter) (t u : Nat) (hWF : ArbWF a)
    (hu : u ≠ t) :
    pauseGo false a = (some (acquire a).1, (acquire a).2)
    ∧ (acquire a).1 ∈ (acquire a).2.locks
    ∧ (∀ x, x ∈ a.locks → x ∈ (acquire a).2.locks)
    ∧ t ∉ (release t b).locks
    ∧ (u ∈ (release t b).locks ↔ u ∈ b.locks)
    ∧ release t (release t b) = release t b
    ∧ (acquire a).1 ≠ (acquire (acquire a).2).1
    ∧ (acquire a).1 ∈ (acquire (acquire a).2).2.locks
    ∧ (acquire (acquire a).2).1 ∈ (acquire (acquire a).2).2.locks
    ∧ (acquire a).2.locks.card = a.locks.card + 1
    ∧ ArbWF (acquire a).2 ∧ ArbWF (release t a) := by
  refine ⟨rfl, ?_, ?_, ?_, ?_, ?_, ?_, ?_, ?_, ?_, ?_, ?_⟩
  · exact Finset.mem_insert_self _ _
  · intro x hx
    exact Finset.mem_insert_of_mem hx
  · exact Finset.not_mem_erase _ _
  · simp [release, Finset.mem_erase, hu]
  · simp [release, Finset.erase_idem]
  · simp [acquire]
  · simp [acquire]
  · exact Finset.mem_insert_self _ _
  · have hfresh : a.next ∉ a.locks := fun hmem =>
      lt_irrefl a.next (hWF a.next hmem)
    simpa [acquire] using Finset.card_insert_of_not_mem hfresh
  · intro v hv
    rcases Finset.mem_insert.mp hv with hveq | hvmem
    · simp [acquire, hveq]
    · exact Nat.lt_succ_of_lt (hWF v hvmem)
  · intro v hv
    exact hWF v (Finset.mem_of_mem_erase hv)

/-- Witness for `c6_lease_invariants` on an arbiter holding lease 1 with
supply at 2, releasing token 3 from a one-lease arbiter. -/
theorem c6_lease_invariants_witness :
    pauseGo false ⟨{1}, 2⟩ = (some (acquire ⟨{1}, 2⟩).1, (acquire ⟨{1}, 2⟩).2)
    ∧ (acquire ⟨{1}, 2⟩).1 ∈ (acquire ⟨{1}, 2⟩).2.locks
    ∧ (1 ∈ Arbiter.locks ⟨{1}, 2⟩ → 1 ∈ (acquire ⟨{1}, 2⟩).2.locks)
    ∧ 3 ∉ (release 3 ⟨{3}, 4⟩).locks
    ∧ (5 ∈ (release 3 ⟨{3}, 4⟩).locks ↔ 5 ∈ Arbiter.locks ⟨{3}, 4⟩)
    ∧ release 3 (release 3 ⟨{3}, 4⟩) = release 3 ⟨{3}, 4⟩
    ∧ (acquire ⟨{1}, 2⟩).1 ≠ (acquire (acquire ⟨{1}, 2⟩).2).1
    ∧ (acquire ⟨{1}, 2⟩).1 ∈ (acquire (acquire ⟨{1}, 2⟩).2).2.locks
    ∧ (acquire (acquire ⟨{1}, 2⟩).2).1 ∈ (acquire (acquire ⟨{1}, 2⟩).2).2.locks
    ∧ (acquire ⟨{1}, 2⟩).2.locks.card = (Arbiter.locks ⟨{1}, 2⟩).card + 1
    ∧ ArbWF (acquire ⟨{1}, 2⟩).2 ∧ ArbWF (release 3 ⟨{1}, 2⟩) := by
  obtain ⟨h0, h1, h2, h3, h4, h5, h6, h7, h8, h9, h10, h11⟩ :=
    c6_lease_invariants ⟨{1}, 2⟩ ⟨{3}, 4⟩ 3 5
      (by intro v hv; simp at hv; simp [hv]) (by norm_num)
  exact ⟨h0, h1, h2 1, h3, h4, h5, h6, h7, h8, h9, h10, h11⟩

/-- Both rotation policies answer do-not-rotate while paused, before any
size comparison or user-predicate call. -/
theorem needRotate_paused (c : Option (Nat → Option Bool)) (T S L : Nat) :
    needRotate true c T S L = (false, none) := by
  cases c <;> rfl

/-- No dispatch issued while the hook is paused ever rotates: the event
trace of `fire` under `paused = true` never contains a rotation. -/
theorem fire_paused_no_rotate (env : FireEnv) (s : FireState)
    (hp : env.paused = true) :
    Event.rotated ∉ (fire env s).2.1 := by
  obtain ⟨cd, p, T, c, e, re, w⟩ := env
  simp only at hp
  subst hp
  cases cd
  · cases e with
    | none => simp [fire]
    | some lenB =>
      cases w <;>
        simp [fire, needRotate_paused, writeStep]
  · simp [fire]

/-- C4: while at least one lease is outstanding the arbiter reports
paused, both the default and any custom rotation predicate answer
do-not-rotate, and no dispatch issued in that state produces a rotation;
once the sole outstanding lease is released the arbiter reports unpaused,
and the next dispatch whose size condition holds rotates before writing. -/
theorem c4_pause_suppresses_rotation (a : Arbiter) (t : Nat)
    (c : Option (Nat → Option Bool)) (T S L F n : Nat) (e : Option Nat)
    (re : Option RErr) (w : Option Nat) (s : FireState)
    (hone : a.locks = {t}) (hsz : T ≤ S + L) (hov : S + L < U64) :
    pausedGo false a = true
    ∧ needRotate true c T S L = (false, none)
    ∧ Event.rotated ∉ (fire ⟨false, true, T, c, e, re, w⟩ s).2.1
    ∧ pausedGo false (release t a) = false
    ∧ fire ⟨false, pausedGo false (release t a), T, none, some L, none,
          some n⟩ ⟨S, F⟩
        = (⟨n % U64, n⟩, [Event.rotated, Event.wrote n], none) := by
  have hrel : pausedGo false (release t a) = false := by
    simp [pausedGo, isPaused, release, hone]
  have hmod : (S + L) % U64 = S + L := Nat.mod_eq_of_lt hov
  refine ⟨?_, needRotate_paused c T S L, fire_paused_no_rotate _ s rfl,
      hrel, ?_⟩
  · simp [pausedGo, isPaused, hone]
  · rw [hrel]
    simp [fire, needRotate, hmod, hsz, writeStep]

/-- Witness for `c4_pause_suppresses_rotation`: one outstanding lease with
token 3, default policy at threshold 10, tracked size 6, payload 4. -/
theorem c4_pause_suppresses_rotation_witness :
    pausedGo false ⟨{3}, 4⟩ = true
    ∧ needRotate true none 10 6 4 = (false, none)
    ∧ Event.rotated ∉
        (fire ⟨false, true, 10, none, some 4, none, some 4⟩ ⟨6, 0⟩).2.1
    ∧ pausedGo false (release 3 ⟨{3}, 4⟩) = false
    ∧ fire ⟨false, pausedGo false (release 3 ⟨{3}, 4⟩), 10, none, some 4,
          none, some 4⟩ ⟨6, 0⟩
        = (⟨4 % U64, 4⟩, [Event.rotated, Event.wrote 4], none) :=
  c4_pause_suppresses_rotation ⟨{3}, 4⟩ 3 none 10 6 4 0 4 (some 4) none
    (some 4) ⟨6, 0⟩ rfl (by norm_num) (by norm_num [U64])

/-- Bytes written in a concatenated trace add up. -/
theorem sumWrites_append (l1 l2 : List Event) :
    sumWrites (l1 ++ l2) = sumWrites l1 + sumWrites l2 := by
  induction l1 with
  | nil => simp [sumWrites]
  | cons ev r ih =>
    cases ev with
    | rotated => simp [sumWrites, ih]
    | wrote n =>
      simp [sumWrites, ih]
      omega

/-- A successful dispatch that did not rotate advances the tracked size by
exactly the bytes the write reported (modulo `uint64`) and the file length
by the same amount. -/
theorem fire_ok_step (env : FireEnv) (s s2 : FireState) (evs : List Event)
    (h : fire env s = (s2, evs, none)) (hr : Event.rotated ∉ evs) :
    s2.size = (s.size + sumWrites evs) % U64
    ∧ s2.fileLen = s.fileLen + sumWrites evs := by
  obtain ⟨cd, p, T, c, e, re, w⟩ := env
  cases cd with
  | true =>
    have hfe : fire ⟨true, p, T, c, e, re, w⟩ s
        = (s, [], some RErr.ctxDone) := rfl
    rw [hfe] at h
    injection h with h1 hrest
    injection hrest with h2 h3
    exact Option.noConfusion h3
  | false =>
    cases e with
    | none =>
      have hfe : fire ⟨false, p, T, c, none, re, w⟩ s
          = (s, [], some RErr.convFailed) := rfl
      rw [hfe] at h
      injection h with h1 hrest
      injection hrest with h2 h3
      exact Option.noConfusion h3
    | some lenB =>
      rcases hnr : needRotate p c T s.size lenB with ⟨rot, err⟩
      cases err with
      | some er =>
        have hfe : fire ⟨false, p, T, c, some lenB, re, w⟩ s
            = (s, [], some er) := by
          simp [fire, hnr]
        rw [hfe] at h
        injection h with h1 hrest
        injection hrest with h2 h3
        exact Option.noConfusion h3
      | none =>
        cases rot with
        | true =>
          cases re with
          | some er =>
            have hfe : fire ⟨false, p, T, c, some lenB, some er, w⟩ s
                = (s, [], some (RErr.wrapRotate er)) := by
              simp [fire, hnr]
            rw [hfe] at h
            injection h with h1 hrest
            injection hrest with h2 h3
            exact Option.noConfusion h3
          | none =>
            cases w with
            | none =>
              have hfe : fire ⟨false, p, T, c, some lenB, none, none⟩ s
                  = (⟨0, 0⟩, [Event.rotated], some RErr.writeFailed) := by
                simp [fire, hnr, writeStep]
              rw [hfe] at h
              injection h with h1 hrest
              injection hrest with h2 h3
              exact Option.noConfusion h3
            | some n =>
              have hfe : fire ⟨false, p, T, c, some lenB, none, some n⟩ s
                  = (⟨n % U64, n⟩, [Event.rotated, Event.wrote n], none) := by
                simp [fire, hnr, writeStep]
              rw [hfe] at h
              injection h with h1 hrest
              injection hrest with h2 h3
              subst h2
              simp at hr
        | false =>
          cases w with
          | none =>
            have hfe : fire ⟨false, p, T, c, some lenB, re, none⟩ s
                = (s, [], some RErr.writeFailed) := by
              simp [fire, hnr, writeStep]
            rw [hfe] at h
            injection h with h1 hrest
            injection hrest with h2 h3
            exact Option.noConfusion h3
          | some n =>
            have hfe : fire ⟨false, p, T, c, some lenB, re, some n⟩ s
                = (⟨(s.size + n) % U64, s.fileLen + n⟩,
                   [Event.wrote n], none) := by
              simp [fire, hnr, writeStep]
            rw [hfe] at h
            injection h with h1 hrest
            injection hrest with h2 h3
            subst h1
            subst h2
            simp [sumWrites]

/-- When the write oracle fails and no rotation happened in the dispatch,
the hook state — in particular the tracked size — is left unchanged. -/
theorem fire_writeFail_frame (env : FireEnv) (s : FireState)
    (hw : env.writeRes = none)
    (hr : Event.rotated ∉ (fire env s).2.1) :
    (fire env s).1 = s := by
  obtain ⟨cd, p, T, c, e, re, w⟩ := env
  simp only at hw
  subst hw
  cases cd with
  | true => rfl
  | false =>
    cases e with
    | none => rfl
    | some lenB =>
      rcases hnr : needRotate p c T s.size lenB with ⟨rot, err⟩
      cases err with
      | some er => simp [fire, hnr]
      | none =>
        cases rot with
        | true =>
          cases re with
          | some er => simp [fire, hnr]
          | none =>
            exfalso
            apply hr
            simp [fire, hnr, writeStep]
        | false => simp [fire, hnr, writeStep]

/-- Accounting over a sequence of successful dispatches with no rotation:
the tracked size and file length both advance by the total bytes written. -/
theorem fireSeq_ok (envs : List FireEnv) :
    ∀ (s s2 : FireState) (evs : List Event), s.size < U64 →
      fireSeq envs s = (s2, evs, none) → Event.rotated ∉ evs →
      s2.size = (s.size + sumWrites evs) % U64
      ∧ s2.fileLen = s.fileLen + sumWrites evs := by
  induction envs with
  | nil =>
    intro s s2 evs hs h hr
    have h' : (s, ([] : List Event), (none : Option RErr))
        = (s2, evs, none) := h
    injection h' with h1 hrest
    injection hrest with h2 h3
    subst h1
    subst h2
    simp [sumWrites, Nat.mod_eq_of_lt hs]
  | cons e rest ih =>
    intro s s2 evs hs h hr
    rcases hfe : fire e s with ⟨s1, evs1, r1⟩
    cases r1 with
    | some er =>
      simp only [fireSeq, hfe] at h
      injection h with h1 hrest
      injection hrest with h2 h3
      exact Option.noConfusion h3
    | none =>
      rcases hfs : fireSeq rest s1 with ⟨s3, evs2, r2⟩
      simp only [fireSeq, hfe, hfs] at h
      injection h with h1 hrest
      injection hrest with h2 h3
      subst h1
      subst h2
      subst h3
      rw [List.mem_append] at hr
      push_neg at hr
      obtain ⟨hr1, hr2⟩ := hr
      obtain ⟨hs1, hf1⟩ := fire_ok_step e s s1 evs1 hfe hr1
      have hU : 0 < U64 := by norm_num [U64]
      have hs1lt : s1.size < U64 := by rw [hs1]; exact Nat.mod_lt _ hU
      obtain ⟨hs3, hf3⟩ := ih s1 s3 evs2 hs1lt hfs hr2
      constructor
      · rw [hs3, hs1, sumWrites_append, Nat.mod_add_mod, Nat.add_assoc]
      · rw [hf3, hf1, sumWrites_append, Nat.add_assoc]

/-- C9: over any sequence of successful dispatches with no intervening
rotation, the tracked size equals the initial size plus the sum of the
bytes each write reported, and equals the live file's on-disk length when
they started equal (as `open` guarantees); and a dispatch whose write
fails (without a rotation) leaves the state, in particular the tracked
size, unchanged. -/
theorem c9_size_accounting (envs : List FireEnv) (s0 s2 : FireState)
    (evs : List Event) (env : FireEnv) (s : FireState)
    (hrun : fireSeq envs s0 = (s2, evs, none))
    (hnr : Event.rotated ∉ evs)
    (hinit : s0.size = s0.fileLen)
    (hov : s0.size + sumWrites evs < U64)
    (hw : env.writeRes = none)
    (hwr : Event.rotated ∉ (fire env s).2.1) :
    s2.size = s0.size + sumWrites evs
    ∧ s2.fileLen = s0.fileLen + sumWrites evs
    ∧ s2.size = s2.fileLen
    ∧ (fire env s).1 = s := by
  have hs0 : s0.size < U64 := lt_of_le_of_lt (Nat.le_add_right _ _) hov
  obtain ⟨h1, h2⟩ := fireSeq_ok envs s0 s2 evs hs0 hrun hnr
  have hm := Nat.mod_eq_of_lt hov
  refine ⟨h1.trans hm, h2, ?_, fire_writeFail_frame env s hw hwr⟩
  rw [h1, hm, h2, hinit]

/-- First dispatch environment of the C9 witness: 5-byte payload,
threshold 100, write of 5 bytes. -/
def envW1 : FireEnv := ⟨false, false, 100, none, some 5, none, some 5⟩

/-- Second dispatch environment of the C9 witness: 7-byte payload,
threshold 100, write of 7 bytes. -/
def envW2 : FireEnv := ⟨false, false, 100, none, some 7, none, some 7⟩

/-- Failing-write dispatch environment of the C9 witness. -/
def envWFail : FireEnv := ⟨false, false, 100, none, some 5, none, none⟩

/-- Witness for `c9_size_accounting`: two successful writes of 5 and 7
bytes from tracked size 3, plus one failing write. -/
theorem c9_size_accounting_witness :
    (fireSeq [envW1, envW2] ⟨3, 3⟩).1.size
        = (FireState.mk 3 3).size
          + sumWrites (fireSeq [envW1, envW2] ⟨3, 3⟩).2.1
    ∧ (fireSeq [envW1, envW2] ⟨3, 3⟩).1.fileLen
        = (FireState.mk 3 3).fileLen
          + sumWrites (fireSeq [envW1, envW2] ⟨3, 3⟩).2.1
    ∧ (fireSeq [envW1, envW2] ⟨3, 3⟩).1.size
        = (fireSeq [envW1, envW2] ⟨3, 3⟩).1.fileLen
    ∧ (fire envWFail ⟨3, 3⟩).1 = ⟨3, 3⟩ :=
  c9_size_accounting [envW1, envW2] ⟨3, 3⟩ _ _ envWFail ⟨3, 3⟩ rfl
    (by decide) rfl (by decide) rfl (by decide)

end Rotate4logrus
